import Mathlib

/-!
# Verification of the lmcore channel and timer subsystems

This file gives a shallow embedding, in Lean 4, of the sequential behaviour of
the `lmshao::lmcore::sync` bounded channels
(`include/lmcore/{spsc,mpsc,spmc,mpmc}_channel.h`) and of the
`lmshao::coreutils::AsyncTimer` (`src/async_timer.cpp`,
`include/core-utils/async_timer.h`), together with theorems about the
specified properties of these components.

Modelling conventions:

* All four circular queues keep two monotonically increasing `uint64_t`
  counters `head_` and `tail_` ("indices are never reset"); they are embedded
  as unbounded `Nat`.  Below `2^64` operations — the envelope inside which the
  specification documents the structure as safe — `Nat` arithmetic coincides
  with the machine's `uint64_t` arithmetic, because the source only ever
  computes `tail - head` with `head ≤ tail` and `counter % capacity`.
* The CAS loops of the MPSC/SPMC/MPMC queues are embedded at their sequential
  (single-thread, uncontended) behaviour: a `compare_exchange_weak` retry loop
  whose counters nobody else moves succeeds on its first iteration, so the
  loop body collapses to the straight-line SPSC code.
* The consumer-side "reserved but not yet published" spin (`!slot.has_value()`
  with `t ≠ h`) cannot terminate on a single thread; the embedding returns
  `none` leaving the state unchanged in that branch, and the reachability
  invariant `Inv` proves the branch is never taken from a reachable state.
* Blocking `Send`/`Recv` are spin loops (`while (!closed) { try; yield; }`);
  they are embedded with an explicit fuel argument counting loop iterations,
  `none` meaning the fuel ran out before the loop exited.
* The timer's `std::multimap` is embedded as a key-sorted association list;
  `emplace` inserts after existing equal keys, which is the C++11 guarantee.
  `std::chrono` time points and durations are embedded as `Nat` milliseconds.
* `std::function` callbacks are embedded by their one observable property at
  this level, nullity: a `Bool` that is `true` when the callback is non-null.
-/

/-! ## Circular queue state

Common state of `SpscCircularQueue`, `MpscCircularQueue`, `SpmcCircularQueue`
and `MpmcCircularQueue`: all four classes have exactly the fields
`capacity_`, `buffer_` (a vector of `std::optional<T>` slots), `head_`,
`tail_`. -/

structure QueueState (α : Type) where
  capacity : Nat
  buffer : List (Option α)
  head : Nat
  tail : Nat
deriving DecidableEq

/-- Constructor common to all four queues:
`capacity_(capacity == 0 ? 1 : capacity), buffer_(capacity_), head_(0), tail_(0)`. -/
def QueueState.init (α : Type) (capacity : Nat) : QueueState α :=
  let cap := if capacity = 0 then 1 else capacity
  { capacity := cap, buffer := List.replicate cap none, head := 0, tail := 0 }

/-- The source loop of `Clear()`: starting at `h`, reset `n` consecutive slots
(`buffer_[h % capacity_].reset(); ++h;`), where `n` is the number of loop
iterations `tail - head`. -/
def clearSlots (cap : Nat) : List (Option α) → Nat → Nat → List (Option α)
  | buf, _, 0 => buf
  | buf, h, n + 1 => clearSlots cap (buf.set (h % cap) none) (h + 1) n

namespace SpscCircularQueue

/-- `SpscCircularQueue::Size`. -/
def Size (q : QueueState α) : Nat :=
  let diff := if q.tail ≥ q.head then q.tail - q.head else 0
  if diff > q.capacity then q.capacity else diff

/-- `SpscCircularQueue::Empty`. -/
def Empty (q : QueueState α) : Bool := q.tail == q.head

/-- `SpscCircularQueue::Full`. -/
def Full (q : QueueState α) : Bool := q.tail - q.head ≥ q.capacity

/-- `SpscCircularQueue::TryPush`: reject when `tail - head ≥ capacity`,
otherwise write the slot at `tail % capacity` and publish `tail + 1`. -/
def TryPush (q : QueueState α) (v : α) : Bool × QueueState α :=
  if q.tail - q.head ≥ q.capacity then (false, q)
  else
    (true, { q with buffer := q.buffer.set (q.tail % q.capacity) (some v),
                    tail := q.tail + 1 })

/-- `SpscCircularQueue::TryPop` (the `std::optional<T>` overload): return
`nullopt` when `tail == head`, otherwise take the value out of slot
`head % capacity`, reset the slot and publish `head + 1`.  Reading an empty
slot with `tail ≠ head` is undefined behaviour in the source
(`slot.value()` on an engaged check it skips); the embedding returns `none`
in that branch, which `Inv` below proves unreachable. -/
def TryPop (q : QueueState α) : Option α × QueueState α :=
  if q.tail = q.head then (none, q)
  else
    match q.buffer.getD (q.head % q.capacity) none with
    | some v =>
        (some v, { q with buffer := q.buffer.set (q.head % q.capacity) none,
                          head := q.head + 1 })
    | none => (none, q)

/-- `SpscCircularQueue::Clear`: reset every slot from `head` to `tail`, then
store `head := tail`. -/
def Clear (q : QueueState α) : QueueState α :=
  { q with buffer := clearSlots q.capacity q.buffer q.head (q.tail - q.head),
           head := q.tail }

end SpscCircularQueue

namespace MpscCircularQueue

/-- `MpscCircularQueue::Size`. -/
def Size (q : QueueState α) : Nat :=
  let diff := if q.tail ≥ q.head then q.tail - q.head else 0
  if diff > q.capacity then q.capacity else diff

/-- `MpscCircularQueue::Empty`. -/
def Empty (q : QueueState α) : Bool := q.tail == q.head

/-- `MpscCircularQueue::Full`. -/
def Full (q : QueueState α) : Bool := q.tail - q.head ≥ q.capacity

/-- `MpscCircularQueue::TryPush`: the CAS retry loop, sequentially.  With no
contending producer the `compare_exchange_weak` on `tail_` succeeds at once,
so one iteration either rejects on `tail - head ≥ capacity` or bumps `tail`
and writes slot `tail % capacity`. -/
def TryPush (q : QueueState α) (v : α) : Bool × QueueState α :=
  if q.tail - q.head ≥ q.capacity then (false, q)
  else
    (true, { q with buffer := q.buffer.set (q.tail % q.capacity) (some v),
                    tail := q.tail + 1 })

/-- `MpscCircularQueue::TryPop`: empty check, then the spin-until-published
wait on the slot.  Sequentially the slot is already published whenever
`tail ≠ head` (proved below through `Inv`); the non-terminating spin branch
is embedded as `none` with the state unchanged. -/
def TryPop (q : QueueState α) : Option α × QueueState α :=
  if q.tail = q.head then (none, q)
  else
    match q.buffer.getD (q.head % q.capacity) none with
    | some v =>
        (some v, { q with buffer := q.buffer.set (q.head % q.capacity) none,
                          head := q.head + 1 })
    | none => (none, q)

/-- `MpscCircularQueue::Clear`. -/
def Clear (q : QueueState α) : QueueState α :=
  { q with buffer := clearSlots q.capacity q.buffer q.head (q.tail - q.head),
           head := q.tail }

end MpscCircularQueue

namespace SpmcCircularQueue

/-- `SpmcCircularQueue::Size`. -/
def Size (q : QueueState α) : Nat :=
  let diff := if q.tail ≥ q.head then q.tail - q.head else 0
  if diff > q.capacity then q.capacity else diff

/-- `SpmcCircularQueue::Empty`. -/
def Empty (q : QueueState α) : Bool := q.tail == q.head

/-- `SpmcCircularQueue::Full`. -/
def Full (q : QueueState α) : Bool := q.tail - q.head ≥ q.capacity

/-- `SpmcCircularQueue::TryPush`: single-producer straight-line push, same
code as the SPSC one. -/
def TryPush (q : QueueState α) (v : α) : Bool × QueueState α :=
  if q.tail - q.head ≥ q.capacity then (false, q)
  else
    (true, { q with buffer := q.buffer.set (q.tail % q.capacity) (some v),
                    tail := q.tail + 1 })

/-- `SpmcCircularQueue::TryPop`: the consumer CAS loop, sequentially.  The
`compare_exchange_weak` on `head_` succeeds at once without contention. -/
def TryPop (q : QueueState α) : Option α × QueueState α :=
  if q.tail = q.head then (none, q)
  else
    match q.buffer.getD (q.head % q.capacity) none with
    | some v =>
        (some v, { q with buffer := q.buffer.set (q.head % q.capacity) none,
                          head := q.head + 1 })
    | none => (none, q)

/-- `SpmcCircularQueue::Clear`. -/
def Clear (q : QueueState α) : QueueState α :=
  { q with buffer := clearSlots q.capacity q.buffer q.head (q.tail - q.head),
           head := q.tail }

end SpmcCircularQueue

namespace MpmcCircularQueue

/-- `MpmcCircularQueue::Size`. -/
def Size (q : QueueState α) : Nat :=
  let diff := if q.tail ≥ q.head then q.tail - q.head else 0
  if diff > q.capacity then q.capacity else diff

/-- `MpmcCircularQueue::Empty`. -/
def Empty (q : QueueState α) : Bool := q.tail == q.head

/-- `MpmcCircularQueue::Full`. -/
def Full (q : QueueState α) : Bool := q.tail - q.head ≥ q.capacity

/-- `MpmcCircularQueue::TryPush`: producer CAS loop, sequentially (one
uncontended iteration). -/
def TryPush (q : QueueState α) (v : α) : Bool × QueueState α :=
  if q.tail - q.head ≥ q.capacity then (false, q)
  else
    (true, { q with buffer := q.buffer.set (q.tail % q.capacity) (some v),
                    tail := q.tail + 1 })

/-- `MpmcCircularQueue::TryPop`: consumer CAS loop with the bounded
spin-until-published wait, sequentially. -/
def TryPop (q : QueueState α) : Option α × QueueState α :=
  if q.tail = q.head then (none, q)
  else
    match q.buffer.getD (q.head % q.capacity) none with
    | some v =>
        (some v, { q with buffer := q.buffer.set (q.head % q.capacity) none,
                          head := q.head + 1 })
    | none => (none, q)

/-- `MpmcCircularQueue::Clear`. -/
def Clear (q : QueueState α) : QueueState α :=
  { q with buffer := clearSlots q.capacity q.buffer q.head (q.tail - q.head),
           head := q.tail }

end MpmcCircularQueue

/-! ## Channel endpoints

Every channel variant shares one queue and one `std::atomic<bool> closed`
flag between its sender and its receiver (`XxxChannel(capacity)` allocates
both and hands shared references to the two endpoints).  Sequentially the
channel is therefore one record. -/

structure Chan (α : Type) where
  queue : QueueState α
  closed : Bool
deriving DecidableEq

/-- `XxxChannel(capacity)`: fresh queue, `closed = false`. -/
def Chan.init (α : Type) (capacity : Nat) : Chan α :=
  { queue := QueueState.init α capacity, closed := false }

namespace SpscSender

/-- `SpscSender::TrySend`: `return queue_->TryPush(std::move(value));` — the
`closed_` flag is not consulted. -/
def TrySend (ch : Chan α) (v : α) : Bool × Chan α :=
  let r := SpscCircularQueue.TryPush ch.queue v
  (r.1, { ch with queue := r.2 })

/-- `SpscSender::Send`: `while (!closed_) { if (TryPush) return true; yield; }
return false;`.  Fuel counts loop-condition checks; `none` = fuel exhausted
while still spinning. -/
def Send : Nat → Chan α → α → Option (Bool × Chan α)
  | 0, _, _ => none
  | fuel + 1, ch, v =>
    if ch.closed then some (false, ch)
    else
      let r := SpscCircularQueue.TryPush ch.queue v
      if r.1 then some (true, { ch with queue := r.2 })
      else Send fuel ch v

/-- `SpscSender::Close`. -/
def Close (ch : Chan α) : Chan α := { ch with closed := true }

/-- `SpscSender::IsClosed`. -/
def IsClosed (ch : Chan α) : Bool := ch.closed

end SpscSender

namespace SpscReceiver

/-- `SpscReceiver::TryRecv`. -/
def TryRecv (ch : Chan α) : Option α × Chan α :=
  let r := SpscCircularQueue.TryPop ch.queue
  (r.1, { ch with queue := r.2 })

/-- `SpscReceiver::Recv`: `while (!closed_) { val = TryPop(); if (val) return
val; yield; } return queue_->TryPop();`. -/
def Recv : Nat → Chan α → Option (Option α × Chan α)
  | 0, _ => none
  | fuel + 1, ch =>
    if ch.closed then
      let r := SpscCircularQueue.TryPop ch.queue
      some (r.1, { ch with queue := r.2 })
    else
      match SpscCircularQueue.TryPop ch.queue with
      | (some v, q) => some (some v, { ch with queue := q })
      | (none, _) => Recv fuel ch

end SpscReceiver

namespace MpscSender

/-- `MpscSender::TrySend` (mpsc_channel.h:181): forwards to `TryPush`,
ignoring `closed_`. -/
def TrySend (ch : Chan α) (v : α) : Bool × Chan α :=
  let r := MpscCircularQueue.TryPush ch.queue v
  (r.1, { ch with queue := r.2 })

/-- `MpscSender::Send`. -/
def Send : Nat → Chan α → α → Option (Bool × Chan α)
  | 0, _, _ => none
  | fuel + 1, ch, v =>
    if ch.closed then some (false, ch)
    else
      let r := MpscCircularQueue.TryPush ch.queue v
      if r.1 then some (true, { ch with queue := r.2 })
      else Send fuel ch v

/-- `MpscSender::Close`. -/
def Close (ch : Chan α) : Chan α := { ch with closed := true }

end MpscSender

namespace MpscReceiver

/-- `MpscReceiver::TryRecv`. -/
def TryRecv (ch : Chan α) : Option α × Chan α :=
  let r := MpscCircularQueue.TryPop ch.queue
  (r.1, { ch with queue := r.2 })

/-- `MpscReceiver::Recv`. -/
def Recv : Nat → Chan α → Option (Option α × Chan α)
  | 0, _ => none
  | fuel + 1, ch =>
    if ch.closed then
      let r := MpscCircularQueue.TryPop ch.queue
      some (r.1, { ch with queue := r.2 })
    else
      match MpscCircularQueue.TryPop ch.queue with
      | (some v, q) => some (some v, { ch with queue := q })
      | (none, _) => Recv fuel ch

end MpscReceiver

namespace SpmcSender

/-- `SpmcSender::TrySend` (spmc_channel.h:181): forwards to `TryPush`,
ignoring `closed_`. -/
def TrySend (ch : Chan α) (v : α) : Bool × Chan α :=
  let r := SpmcCircularQueue.TryPush ch.queue v
  (r.1, { ch with queue := r.2 })

/-- `SpmcSender::Send`. -/
def Send : Nat → Chan α → α → Option (Bool × Chan α)
  | 0, _, _ => none
  | fuel + 1, ch, v =>
    if ch.closed then some (false, ch)
    else
      let r := SpmcCircularQueue.TryPush ch.queue v
      if r.1 then some (true, { ch with queue := r.2 })
      else Send fuel ch v

/-- `SpmcSender::Close`. -/
def Close (ch : Chan α) : Chan α := { ch with closed := true }

end SpmcSender

namespace SpmcReceiver

/-- `SpmcReceiver::TryRecv`. -/
def TryRecv (ch : Chan α) : Option α × Chan α :=
  let r := SpmcCircularQueue.TryPop ch.queue
  (r.1, { ch with queue := r.2 })

/-- `SpmcReceiver::Recv`. -/
def Recv : Nat → Chan α → Option (Option α × Chan α)
  | 0, _ => none
  | fuel + 1, ch =>
    if ch.closed then
      let r := SpmcCircularQueue.TryPop ch.queue
      some (r.1, { ch with queue := r.2 })
    else
      match SpmcCircularQueue.TryPop ch.queue with
      | (some v, q) => some (some v, { ch with queue := q })
      | (none, _) => Recv fuel ch

end SpmcReceiver

namespace MpmcSender

/-- `MpmcSender::TrySend` (mpmc_channel.h:187): forwards to `TryPush`,
ignoring `closed_`. -/
def TrySend (ch : Chan α) (v : α) : Bool × Chan α :=
  let r := MpmcCircularQueue.TryPush ch.queue v
  (r.1, { ch with queue := r.2 })

/-- `MpmcSender::Send`. -/
def Send : Nat → Chan α → α → Option (Bool × Chan α)
  | 0, _, _ => none
  | fuel + 1, ch, v =>
    if ch.closed then some (false, ch)
    else
      let r := MpmcCircularQueue.TryPush ch.queue v
      if r.1 then some (true, { ch with queue := r.2 })
      else Send fuel ch v

/-- `MpmcSender::Close`. -/
def Close (ch : Chan α) : Chan α := { ch with closed := true }

end MpmcSender

namespace MpmcReceiver

/-- `MpmcReceiver::TryRecv`. -/
def TryRecv (ch : Chan α) : Option α × Chan α :=
  let r := MpmcCircularQueue.TryPop ch.queue
  (r.1, { ch with queue := r.2 })

/-- `MpmcReceiver::Recv`. -/
def Recv : Nat → Chan α → Option (Option α × Chan α)
  | 0, _ => none
  | fuel + 1, ch =>
    if ch.closed then
      let r := MpmcCircularQueue.TryPop ch.queue
      some (r.1, { ch with queue := r.2 })
    else
      match MpmcCircularQueue.TryPop ch.queue with
      | (some v, q) => some (some v, { ch with queue := q })
      | (none, _) => Recv fuel ch

end MpmcReceiver

/-! ## Reachability invariant and FIFO abstraction for the circular queues

All four queues execute the same sequential step functions, so the analysis is
carried out once, on the `SpscCircularQueue` definitions; the claim theorems
record the definitional equality of the four variants' operations. -/

/-- Two distinct counters within a window smaller than `C` land on distinct
slots. -/
theorem mod_ne_of_window {C a b : Nat} (hab : a < b) (hlt : b - a < C) :
    a % C ≠ b % C := by
  intro h
  have h2 : C ∣ b - a := (Nat.modEq_iff_dvd' (Nat.le_of_lt hab)).mp h
  have h3 : C ≤ b - a := Nat.le_of_dvd (by omega) h2
  omega

theorem getD_set_ne (l : List (Option α)) {i j : Nat} (h : i ≠ j)
    (v : Option α) : (l.set i v).getD j none = l.getD j none := by
  simp [List.getD, List.getElem?_set_ne h]

theorem getD_set_self (l : List (Option α)) {i : Nat} (h : i < l.length)
    (v : Option α) : (l.set i v).getD i none = v := by
  simp [List.getD, List.getElem?_set_self, h]

namespace SpscCircularQueue

/-- The slots of the live window `[head, tail)`, oldest first. -/
def window (q : QueueState α) : List (Option α) :=
  (List.range (q.tail - q.head)).map
    (fun i => q.buffer.getD ((q.head + i) % q.capacity) none)

/-- FIFO abstraction of a queue state: the values of the live window. -/
def abs (q : QueueState α) : List α := (window q).filterMap id

/-- States reachable by sequential push/pop from a fresh queue: the buffer has
`capacity` slots, `capacity ≥ 1`, the counters satisfy
`head ≤ tail ≤ head + capacity`, and every slot of the live window is
published (holds a value). -/
def Inv (q : QueueState α) : Prop :=
  q.buffer.length = q.capacity ∧ 1 ≤ q.capacity ∧ q.head ≤ q.tail ∧
  q.tail - q.head ≤ q.capacity ∧ ∀ x ∈ window q, x.isSome = true

theorem inv_init (α : Type) (C : Nat) : Inv (QueueState.init α C) := by
  refine ⟨?_, ?_, ?_, ?_, ?_⟩
  · simp [QueueState.init]
  · simp only [QueueState.init]
    split <;> omega
  · simp [QueueState.init]
  · simp [QueueState.init]
  · intro x hx
    simp [window, QueueState.init] at hx

theorem window_length (q : QueueState α) :
    (window q).length = q.tail - q.head := by
  simp [window]

theorem abs_length {q : QueueState α} (hq : Inv q) :
    (abs q).length = q.tail - q.head := by
  have h : ∀ x ∈ window q, (id x).isSome = true := by
    simpa using hq.2.2.2.2
  calc (abs q).length = (window q).length :=
        List.filterMap_length_eq_length.mpr h
    _ = q.tail - q.head := window_length q

/-- Effect of a non-rejected `TryPush` on the state and the window. -/
theorem window_push {q : QueueState α} (hq : Inv q)
    (hfull : q.tail - q.head < q.capacity) (v : α) :
    (TryPush q v).1 = true ∧ (TryPush q v).2.capacity = q.capacity ∧
    (TryPush q v).2.head = q.head ∧ (TryPush q v).2.tail = q.tail + 1 ∧
    (TryPush q v).2.buffer.length = q.buffer.length ∧
    window (TryPush q v).2 = window q ++ [some v] := by
  obtain ⟨hlen, hcap, hht, _, _⟩ := hq
  have hne : ¬ q.tail - q.head ≥ q.capacity := by omega
  have hpush : TryPush q v =
      (true, { q with buffer := q.buffer.set (q.tail % q.capacity) (some v),
                      tail := q.tail + 1 }) := by
    simp only [TryPush, if_neg hne]
  rw [hpush]
  refine ⟨rfl, rfl, rfl, rfl, by simp, ?_⟩
  simp only [window]
  rw [show q.tail + 1 - q.head = (q.tail - q.head) + 1 from by omega,
    List.range_succ, List.map_append, List.map_singleton]
  congr 1
  · apply List.map_congr_left
    intro i hi
    simp only [List.mem_range] at hi
    exact getD_set_ne _
      (Ne.symm (mod_ne_of_window (a := q.head + i) (b := q.tail)
        (by omega) (by omega))) _
  · rw [show q.head + (q.tail - q.head) = q.tail from by omega]
    rw [getD_set_self _ (by rw [hlen]; exact Nat.mod_lt _ (by omega)) _]

/-- Effect of `TryPop` on a non-empty reachable state: it returns the oldest
published value and drops it from the window. -/
theorem window_pop {q : QueueState α} (hq : Inv q) (hne : q.tail ≠ q.head) :
    ∃ v, (TryPop q).1 = some v ∧ (TryPop q).2.capacity = q.capacity ∧
      (TryPop q).2.head = q.head + 1 ∧ (TryPop q).2.tail = q.tail ∧
      (TryPop q).2.buffer.length = q.buffer.length ∧
      window q = some v :: window (TryPop q).2 := by
  obtain ⟨hlen, hcap, hht, hwin, hpub⟩ := hq
  have hlt : 0 < q.tail - q.head := by omega
  have hmem : q.buffer.getD ((q.head + 0) % q.capacity) none ∈ window q := by
    simp only [window, List.mem_map]
    exact ⟨0, by simp [List.mem_range, hlt], rfl⟩
  have h0 := hpub _ hmem
  simp only [Nat.add_zero] at h0
  obtain ⟨v, hv⟩ := Option.isSome_iff_exists.mp h0
  have hpop : TryPop q =
      (some v, { q with buffer := q.buffer.set (q.head % q.capacity) none,
                        head := q.head + 1 }) := by
    simp only [TryPop, if_neg hne]
    rw [hv]
  refine ⟨v, by rw [hpop], by rw [hpop], by rw [hpop], by rw [hpop],
    by rw [hpop]; simp, ?_⟩
  rw [hpop]
  simp only [window]
  rw [show q.tail - q.head = (q.tail - (q.head + 1)) + 1 from by omega,
    List.range_succ_eq_map, List.map_cons, List.map_map]
  have hhead : (fun i => q.buffer.getD ((q.head + i) % q.capacity) none) 0
      = some v := by simpa using hv
  have htail : List.map
      ((fun i => q.buffer.getD ((q.head + i) % q.capacity) none) ∘ Nat.succ)
      (List.range (q.tail - (q.head + 1))) =
      List.map (fun i =>
        (q.buffer.set (q.head % q.capacity) none).getD
          ((q.head + 1 + i) % q.capacity) none)
      (List.range (q.tail - (q.head + 1))) := by
    apply List.map_congr_left
    intro i hi
    simp only [List.mem_range] at hi
    simp only [Function.comp_apply]
    have hne2 : q.head % q.capacity ≠ (q.head + 1 + i) % q.capacity :=
      mod_ne_of_window (by omega) (by omega)
    rw [show q.head + Nat.succ i = q.head + 1 + i from by omega]
    exact (getD_set_ne _ hne2 _).symm
  exact congrArg₂ List.cons hhead htail

theorem inv_push {q : QueueState α} (hq : Inv q) (v : α) :
    Inv (TryPush q v).2 := by
  by_cases hfull : q.tail - q.head ≥ q.capacity
  · simpa [TryPush, hfull] using hq
  · obtain ⟨h1, h2, h3, h4, h5, h6⟩ := window_push hq (by omega) v
    obtain ⟨hlen, hcap, hht, hwin, hpub⟩ := hq
    refine ⟨by rw [h5, h2, hlen], by rw [h2]; exact hcap,
      by rw [h3, h4]; omega, by rw [h3, h4, h2]; omega, ?_⟩
    intro x hx
    rw [h6] at hx
    rcases List.mem_append.mp hx with h | h
    · exact hpub x h
    · simp only [List.mem_singleton] at h
      rw [h]
      rfl

theorem inv_pop {q : QueueState α} (hq : Inv q) : Inv (TryPop q).2 := by
  by_cases hne : q.tail = q.head
  · simpa [TryPop, hne] using hq
  · obtain ⟨v, h1, h2, h3, h4, h5, h6⟩ := window_pop hq hne
    obtain ⟨hlen, hcap, hht, hwin, hpub⟩ := hq
    refine ⟨by rw [h5, h2, hlen], by rw [h2]; exact hcap,
      by rw [h3, h4]; omega, by rw [h3, h4, h2]; omega, ?_⟩
    intro x hx
    exact hpub x (by rw [h6]; exact List.mem_cons_of_mem _ hx)

/-- On reachable states `abs` has every window slot published, so `TryPush`
appends to the abstraction. -/
theorem abs_push {q : QueueState α} (hq : Inv q)
    (hfull : q.tail - q.head < q.capacity) (v : α) :
    abs (TryPush q v).2 = abs q ++ [v] := by
  rw [abs, (window_push hq hfull v).2.2.2.2.2, List.filterMap_append, abs]
  rfl

theorem abs_pop {q : QueueState α} (hq : Inv q) (hne : q.tail ≠ q.head) :
    ∃ v, (TryPop q).1 = some v ∧ abs q = v :: abs (TryPop q).2 := by
  obtain ⟨v, h1, _, _, _, _, h6⟩ := window_pop hq hne
  exact ⟨v, h1, by rw [abs, h6]; rfl⟩

end SpscCircularQueue

/-! ## Spec-side bounded FIFO queue (refinement target of claim C3) -/

namespace BoundedFifo

/-- Spec-side model, written from the specification's words, not from the
source: a bounded FIFO queue of capacity `C` holds at most `C` values;
pushing appends at the back when there is room and is rejected otherwise. -/
def push (C : Nat) (l : List α) (v : α) : Bool × List α :=
  if l.length < C then (true, l ++ [v]) else (false, l)

/-- Spec-side model: popping removes and returns the oldest value. -/
def pop : List α → Option α × List α
  | [] => (none, [])
  | x :: xs => (some x, xs)

end BoundedFifo

/-- A sequential program over one channel queue: the operations claim C3
quantifies over. -/
inductive ChanOp (α : Type) where
  | push (v : α)
  | pop

namespace SpscCircularQueue

/-- Run a sequence of `TryPush`/`TryPop` calls; besides the final state,
collect the committed values (those whose push succeeded) and the popped
values, each in chronological order. -/
def runOps : QueueState α → List (ChanOp α) → QueueState α × List α × List α
  | q, [] => (q, [], [])
  | q, ChanOp.push v :: ops =>
    let r := TryPush q v
    let rest := runOps r.2 ops
    (rest.1, (if r.1 then [v] else []) ++ rest.2.1, rest.2.2)
  | q, ChanOp.pop :: ops =>
    let r := TryPop q
    let rest := runOps r.2 ops
    (rest.1, rest.2.1,
      (match r.1 with | some v => [v] | none => []) ++ rest.2.2)

end SpscCircularQueue

namespace BoundedFifo

/-- The same sequence of operations on the spec-side bounded FIFO. -/
def runOps (C : Nat) : List α → List (ChanOp α) → List α × List α × List α
  | l, [] => (l, [], [])
  | l, ChanOp.push v :: ops =>
    let r := push C l v
    let rest := runOps C r.2 ops
    (rest.1, (if r.1 then [v] else []) ++ rest.2.1, rest.2.2)
  | l, ChanOp.pop :: ops =>
    let r := pop l
    let rest := runOps C r.2 ops
    (rest.1, rest.2.1,
      (match r.1 with | some v => [v] | none => []) ++ rest.2.2)

end BoundedFifo

namespace SpscCircularQueue

/-- One-step simulation for `TryPush` against the spec-side push. -/
theorem push_sim {q : QueueState α} (hq : Inv q) (v : α) :
    (TryPush q v).1 = (BoundedFifo.push q.capacity (abs q) v).1 ∧
    abs (TryPush q v).2 = (BoundedFifo.push q.capacity (abs q) v).2 := by
  by_cases hfull : q.tail - q.head ≥ q.capacity
  · have hlenge : ¬ (abs q).length < q.capacity := by
      rw [abs_length hq]; omega
    constructor
    · simp [TryPush, hfull, BoundedFifo.push, hlenge]
    · simp [TryPush, hfull, BoundedFifo.push, hlenge]
  · have hlt : q.tail - q.head < q.capacity := by omega
    have hlen : (abs q).length < q.capacity := by rw [abs_length hq]; omega
    obtain ⟨h1, _, _, _, _, _⟩ := window_push hq hlt v
    constructor
    · rw [h1, BoundedFifo.push, if_pos hlen]
    · rw [abs_push hq hlt v, BoundedFifo.push, if_pos hlen]

/-- One-step simulation for `TryPop` against the spec-side pop. -/
theorem pop_sim {q : QueueState α} (hq : Inv q) :
    (TryPop q).1 = (BoundedFifo.pop (abs q)).1 ∧
    abs (TryPop q).2 = (BoundedFifo.pop (abs q)).2 := by
  by_cases hne : q.tail = q.head
  · have hempty : abs q = [] := by
      have := abs_length hq
      rw [hne] at this
      simp only [Nat.sub_self] at this
      exact List.length_eq_zero.mp this
    constructor
    · simp [TryPop, hne, hempty, BoundedFifo.pop]
    · simp [TryPop, hne, hempty, BoundedFifo.pop]
  · obtain ⟨v, h1, h2⟩ := abs_pop hq hne
    constructor
    · rw [h1, h2, BoundedFifo.pop]
    · rw [h2, BoundedFifo.pop]

/-- Whole-run simulation: starting from any reachable state, the circular
queue and the spec-side bounded FIFO stay in lockstep, and the values popped
so far followed by the residual contents are exactly the initial contents
followed by the committed pushes. -/
theorem run_sim {q : QueueState α} (hq : Inv q) (ops : List (ChanOp α)) :
    Inv (runOps q ops).1 ∧
    abs (runOps q ops).1 = (BoundedFifo.runOps q.capacity (abs q) ops).1 ∧
    (runOps q ops).2.1 = (BoundedFifo.runOps q.capacity (abs q) ops).2.1 ∧
    (runOps q ops).2.2 = (BoundedFifo.runOps q.capacity (abs q) ops).2.2 ∧
    (runOps q ops).2.2 ++ abs (runOps q ops).1 =
      abs q ++ (runOps q ops).2.1 := by
  induction ops generalizing q with
  | nil => exact ⟨hq, rfl, rfl, rfl, by simp [runOps]⟩
  | cons op ops ih =>
    cases op with
    | push v =>
      have hcap : (TryPush q v).2.capacity = q.capacity := by
        by_cases hfull : q.tail - q.head ≥ q.capacity <;>
          simp [TryPush, hfull]
      obtain ⟨ih1, ih2, ih3, ih4, ih5⟩ := ih (inv_push hq v)
      obtain ⟨hb, ha⟩ := push_sim hq v
      rw [hcap] at ih2 ih3 ih4
      rw [ha] at ih2 ih3 ih4 ih5
      have hkey : (BoundedFifo.push q.capacity (abs q) v).2 =
          abs q ++
            (if (BoundedFifo.push q.capacity (abs q) v).1 = true
              then [v] else []) := by
        by_cases hl : (abs q).length < q.capacity <;>
          simp [BoundedFifo.push, hl]
      refine ⟨ih1, ?_, ?_, ?_, ?_⟩
      · simp only [runOps, BoundedFifo.runOps]
        exact ih2
      · simp only [runOps, BoundedFifo.runOps, hb, ih3]
      · simp only [runOps, BoundedFifo.runOps]
        exact ih4
      · simp only [runOps, BoundedFifo.runOps]
        rw [ih5, hkey, hb]
        simp
    | pop =>
      have hcap : (TryPop q).2.capacity = q.capacity := by
        by_cases hne : q.tail = q.head
        · simp [TryPop, hne]
        · obtain ⟨v, _, h2, _⟩ := window_pop hq hne
          exact h2
      obtain ⟨ih1, ih2, ih3, ih4, ih5⟩ := ih (inv_pop hq)
      obtain ⟨hb, ha⟩ := pop_sim hq
      rw [hcap] at ih2 ih3 ih4
      rw [ha] at ih2 ih3 ih4 ih5
      refine ⟨ih1, ?_, ?_, ?_, ?_⟩
      · simp only [runOps, BoundedFifo.runOps]
        exact ih2
      · simp only [runOps, BoundedFifo.runOps]
        exact ih3
      · simp only [runOps, BoundedFifo.runOps, hb, ih4]
      · simp only [runOps, BoundedFifo.runOps]
        cases habs : abs q with
        | nil =>
          have hb0 : (TryPop q).1 = none := by rw [hb, habs]; rfl
          rw [habs] at ih5
          simp only [BoundedFifo.pop] at ih5
          rw [hb0]
          simpa using ih5
        | cons v xs =>
          have hb1 : (TryPop q).1 = some v := by rw [hb, habs]; rfl
          have hp2 : (BoundedFifo.pop (abs q)).2 = xs := by rw [habs]; rfl
          rw [hp2] at ih5
          rw [hb1]
          simp only [List.cons_append, List.nil_append, List.append_assoc]
          rw [ih5]

end SpscCircularQueue

/-- A sequential program over one channel queue including the administrative
`Clear()`: the operations claim C9 quantifies over. -/
inductive AdminOp (α : Type) where
  | push (v : α)
  | pop
  | clear

namespace SpscCircularQueue

/-- Run a sequence of `TryPush`/`TryPop`/`Clear` calls. -/
def runAdmin : QueueState α → List (AdminOp α) → QueueState α
  | q, [] => q
  | q, AdminOp.push v :: ops => runAdmin (TryPush q v).2 ops
  | q, AdminOp.pop :: ops => runAdmin (TryPop q).2 ops
  | q, AdminOp.clear :: ops => runAdmin (Clear q) ops

/-- The counter part of the reachability invariant, preserved also by
`Clear`. -/
def CounterInv (q : QueueState α) : Prop :=
  q.head ≤ q.tail ∧ q.tail - q.head ≤ q.capacity

theorem counterInv_push {q : QueueState α} (hq : CounterInv q) (v : α) :
    CounterInv (TryPush q v).2 := by
  obtain ⟨h1, h2⟩ := hq
  by_cases hfull : q.tail - q.head ≥ q.capacity
  · simpa [TryPush, hfull] using ⟨h1, h2⟩
  · constructor <;> simp [TryPush, hfull] <;> omega

theorem counterInv_pop {q : QueueState α} (hq : CounterInv q) :
    CounterInv (TryPop q).2 := by
  obtain ⟨h1, h2⟩ := hq
  by_cases hne : q.tail = q.head
  · simpa [TryPop, hne] using ⟨h1, h2⟩
  · rw [TryPop, if_neg hne]
    cases q.buffer.getD (q.head % q.capacity) none with
    | some v => constructor <;> simp <;> omega
    | none => exact ⟨h1, h2⟩

theorem counterInv_clear (q : QueueState α) :
    CounterInv (Clear q) := by
  exact ⟨Nat.le_refl _, by simp [Clear]⟩

theorem counterInv_capacity_push (q : QueueState α) (v : α) :
    (TryPush q v).2.capacity = q.capacity := by
  by_cases hfull : q.tail - q.head ≥ q.capacity <;> simp [TryPush, hfull]

theorem counterInv_capacity_pop (q : QueueState α) :
    (TryPop q).2.capacity = q.capacity := by
  by_cases hne : q.tail = q.head
  · simp [TryPop, hne]
  · rw [TryPop, if_neg hne]
    cases q.buffer.getD (q.head % q.capacity) none <;> simp

theorem counterInv_runAdmin {q : QueueState α} (hq : CounterInv q)
    (ops : List (AdminOp α)) :
    CounterInv (runAdmin q ops) ∧
    (runAdmin q ops).capacity = q.capacity := by
  induction ops generalizing q with
  | nil => exact ⟨hq, rfl⟩
  | cons op ops ih =>
    cases op with
    | push v =>
      obtain ⟨a, b⟩ := ih (counterInv_push hq v)
      exact ⟨a, by rw [runAdmin, b, counterInv_capacity_push]⟩
    | pop =>
      obtain ⟨a, b⟩ := ih (counterInv_pop hq)
      exact ⟨a, by rw [runAdmin, b, counterInv_capacity_pop]⟩
    | clear =>
      obtain ⟨a, b⟩ := ih (counterInv_clear q)
      exact ⟨a, by rw [runAdmin, b, Clear]⟩

/-- `Size()` clamps to `[0, capacity]` by construction. -/
theorem size_le_capacity (q : QueueState α) : Size q ≤ q.capacity := by
  simp only [Size]
  split <;> split <;> omega

end SpscCircularQueue

/-! ## AsyncTimer

Embedding of `lmshao::coreutils::AsyncTimer` (`src/async_timer.cpp`,
`include/core-utils/async_timer.h`).  Time points and durations are `Nat`
milliseconds; the `TimerCallback` is represented by its nullity (a `Bool`
that is `true` for a non-null callback).  The `std::multimap` `timerTasks_`
is a key-sorted list of `(nextExecutionTime, id)` entries and the
`std::map` `timerMap_` a key-sorted association list from id to the task
record; the `shared_ptr<TimerTask>` aliasing between the two containers is
represented by routing every task access through `timerMap_`. -/

namespace AsyncTimer

/-- `AsyncTimer::TimerTask` (without the callback closure). -/
structure TimerTask where
  id : Nat
  nextExecutionTime : Nat
  interval : Nat
  isRepeating : Bool
  isCancelled : Bool
deriving DecidableEq, Repr

/-- The timer's mutable state. -/
structure TimerState where
  running : Bool
  nextTimerId : Nat
  timerTasks : List (Nat × Nat)
  timerMap : List (Nat × TimerTask)
deriving DecidableEq, Repr

/-- Constructor state: `running_{false}`, `nextTimerId_{1}`, empty indexes. -/
def initState : TimerState :=
  { running := false, nextTimerId := 1, timerTasks := [], timerMap := [] }

/-- `AsyncTimer::Start` (state effect): set `running_`; idempotent. -/
def Start (s : TimerState) : TimerState :=
  if s.running then s else { s with running := true }

/-- `std::multimap::emplace`: insert in key order, after entries with an
equal key (the C++11 equal-range ordering guarantee). -/
def emplaceByTime (e : Nat × Nat) : List (Nat × Nat) → List (Nat × Nat)
  | [] => [e]
  | x :: xs => if x.1 ≤ e.1 then x :: emplaceByTime e xs else e :: x :: xs

/-- `std::map::operator[] = task`: insert in key order or overwrite an
existing key. -/
def insertById (id : Nat) (task : TimerTask) :
    List (Nat × TimerTask) → List (Nat × TimerTask)
  | [] => [(id, task)]
  | x :: xs =>
    if x.1 < id then x :: insertById id task xs
    else if x.1 = id then (id, task) :: xs
    else (id, task) :: x :: xs

/-- `std::map::find` on the id map. -/
def lookupById (id : Nat) : List (Nat × TimerTask) → Option TimerTask
  | [] => none
  | x :: xs => if x.1 = id then some x.2 else lookupById id xs

/-- `std::map::erase(id)`. -/
def eraseById (id : Nat) : List (Nat × TimerTask) → List (Nat × TimerTask)
  | [] => []
  | x :: xs => if x.1 = id then xs else x :: eraseById id xs

/-- `AsyncTimer::GenerateTimerId`: `nextTimerId_.fetch_add(1)` returns the
previous value.  The counter is a `uint64_t` starting at 1; it is embedded
as an unbounded `Nat` (wrap-around needs `2^64` schedules). -/
def GenerateTimerId (s : TimerState) : Nat × TimerState :=
  (s.nextTimerId, { s with nextTimerId := s.nextTimerId + 1 })

/-- `AsyncTimer::ScheduleOnce(callback, delayMs)` at current instant `now`;
`cbValid` is the nullity of `callback`. -/
def ScheduleOnce (cbValid : Bool) (delayMs : Nat) (now : Nat)
    (s : TimerState) : Nat × TimerState :=
  if !cbValid then (0, s)
  else if !s.running then (0, s)
  else
    let r := GenerateTimerId s
    let execTime := now + delayMs
    let task : TimerTask :=
      { id := r.1, nextExecutionTime := execTime, interval := 0,
        isRepeating := false, isCancelled := false }
    (r.1, { r.2 with timerTasks := emplaceByTime (execTime, r.1) r.2.timerTasks,
                     timerMap := insertById r.1 task r.2.timerMap })

/-- `AsyncTimer::ScheduleRepeating(callback, intervalMs, initialDelayMs)` at
current instant `now`. -/
def ScheduleRepeating (cbValid : Bool) (intervalMs initialDelayMs : Nat)
    (now : Nat) (s : TimerState) : Nat × TimerState :=
  if !cbValid then (0, s)
  else if intervalMs = 0 then (0, s)
  else if !s.running then (0, s)
  else
    let r := GenerateTimerId s
    let execTime := now + (if initialDelayMs > 0 then initialDelayMs else intervalMs)
    let task : TimerTask :=
      { id := r.1, nextExecutionTime := execTime, interval := intervalMs,
        isRepeating := true, isCancelled := false }
    (r.1, { r.2 with timerTasks := emplaceByTime (execTime, r.1) r.2.timerTasks,
                     timerMap := insertById r.1 task r.2.timerMap })

/-- `AsyncTimer::Cancel(timerId)`: look the id up in `timerMap_`; when found,
set the shared task record's `isCancelled` and return `true`. -/
def Cancel (timerId : Nat) (s : TimerState) : Bool × TimerState :=
  match lookupById timerId s.timerMap with
  | some task =>
    (true,
      { s with
        timerMap :=
          insertById timerId { task with isCancelled := true } s.timerMap })
  | none => (false, s)

/-- `AsyncTimer::GetActiveTimerCount`: `timerMap_.size()`. -/
def GetActiveTimerCount (s : TimerState) : Nat := s.timerMap.length

/-- The reap loop of `AsyncTimer::ExecuteExpiredTimers`: walk `timerTasks_`
from `begin()` while the key is `≤ now` (the multimap iterates in key
order), erase each visited entry, and collect the tasks that are not
cancelled at that moment. -/
def collectExpired (now : Nat) (m : List (Nat × TimerTask)) :
    List (Nat × Nat) → List TimerTask
  | [] => []
  | e :: rest =>
    if e.1 ≤ now then
      (match lookupById e.2 m with
       | some task => if !task.isCancelled then [task] else []
       | none => []) ++ collectExpired now m rest
    else []

/-- The reschedule loop of `AsyncTimer::ExecuteExpiredTimers`: for each
collected task, a repeating non-cancelled one gets
`nextExecutionTime = now + interval` and is re-emplaced into `timerTasks_`
(the shared record in `timerMap_` is updated through the alias), while a
non-repeating one is erased from `timerMap_`. -/
def rescheduleLoop (now : Nat) :
    List TimerTask → List (Nat × Nat) × List (Nat × TimerTask) →
    List (Nat × Nat) × List (Nat × TimerTask)
  | [], st => st
  | task :: rest, (byTime, byId) =>
    if !task.isCancelled && task.isRepeating then
      rescheduleLoop now rest
        (emplaceByTime (now + task.interval, task.id) byTime,
         insertById task.id
           { task with nextExecutionTime := now + task.interval } byId)
    else if !task.isRepeating then
      rescheduleLoop now rest (byTime, eraseById task.id byId)
    else
      rescheduleLoop now rest (byTime, byId)

/-- `AsyncTimer::ExecuteExpiredTimers` at instant `now`: reap the expired
prefix of `timerTasks_`, submit the non-cancelled collected tasks to the
thread pool (returned as the list of their ids), then run the reschedule
loop.  `now` is read once, before the reap. -/
def ExecuteExpiredTimers (now : Nat) (s : TimerState) :
    TimerState × List Nat :=
  let expiredTasks := collectExpired now s.timerMap s.timerTasks
  let remaining := s.timerTasks.dropWhile (fun e => e.1 ≤ now)
  let submitted := (expiredTasks.filter (fun task => !task.isCancelled)).map
    (fun task => task.id)
  let r := rescheduleLoop now expiredTasks (remaining, s.timerMap)
  ({ s with timerTasks := r.1, timerMap := r.2 }, submitted)

end AsyncTimer

/-! ## The four variants execute the same sequential code

The non-recursive operations are definitionally equal; the fueled blocking
loops are proved equal by induction on the fuel. -/

instance SpscCircularQueue.invDecidable (q : QueueState α) :
    Decidable (SpscCircularQueue.Inv q) :=
  inferInstanceAs (Decidable (_ ∧ _ ∧ _ ∧ _ ∧
    ∀ x ∈ SpscCircularQueue.window q, x.isSome = true))

theorem mpscSend_eq_spscSend (α : Type) :
    @MpscSender.Send α = @SpscSender.Send α := by
  funext fuel
  induction fuel with
  | zero => rfl
  | succ n ih =>
    funext ch v
    simp only [MpscSender.Send, SpscSender.Send, ih]
    rfl

theorem spmcSend_eq_spscSend (α : Type) :
    @SpmcSender.Send α = @SpscSender.Send α := by
  funext fuel
  induction fuel with
  | zero => rfl
  | succ n ih =>
    funext ch v
    simp only [SpmcSender.Send, SpscSender.Send, ih]
    rfl

theorem mpmcSend_eq_spscSend (α : Type) :
    @MpmcSender.Send α = @SpscSender.Send α := by
  funext fuel
  induction fuel with
  | zero => rfl
  | succ n ih =>
    funext ch v
    simp only [MpmcSender.Send, SpscSender.Send, ih]
    rfl

theorem mpscRecv_eq_spscRecv (α : Type) :
    @MpscReceiver.Recv α = @SpscReceiver.Recv α := by
  funext fuel
  induction fuel with
  | zero => rfl
  | succ n ih =>
    funext ch
    simp only [MpscReceiver.Recv, SpscReceiver.Recv, ih]
    rfl

theorem spmcRecv_eq_spscRecv (α : Type) :
    @SpmcReceiver.Recv α = @SpscReceiver.Recv α := by
  funext fuel
  induction fuel with
  | zero => rfl
  | succ n ih =>
    funext ch
    simp only [SpmcReceiver.Recv, SpscReceiver.Recv, ih]
    rfl

theorem mpmcRecv_eq_spscRecv (α : Type) :
    @MpmcReceiver.Recv α = @SpscReceiver.Recv α := by
  funext fuel
  induction fuel with
  | zero => rfl
  | succ n ih =>
    funext ch
    simp only [MpmcReceiver.Recv, SpscReceiver.Recv, ih]
    rfl

/-! ## Claim C1 -/

/-- C1 (counterexample): on every channel variant, a `TrySend` issued after
`Close()` still returns `true` when the buffer has free space — here, a
freshly created capacity-1 channel that has been closed — refuting the claim
that every post-close `TrySend` returns `false`. -/
theorem trySend_after_close_counterexample :
    (SpscSender.Close (Chan.init Nat 1)).closed = true ∧
    (SpscSender.TrySend (SpscSender.Close (Chan.init Nat 1)) 42).1 = true ∧
    (MpscSender.TrySend (MpscSender.Close (Chan.init Nat 1)) 42).1 = true ∧
    (SpmcSender.TrySend (SpmcSender.Close (Chan.init Nat 1)) 42).1 = true ∧
    (MpmcSender.TrySend (MpmcSender.Close (Chan.init Nat 1)) 42).1 = true := by
  decide

/-- C1 (amended): `TrySend` does not consult the closed flag at all; on every
channel variant and every channel state — closed or not — it returns `false`
exactly when the circular buffer is full at observation time, and succeeds
whenever there is free space.  (Only the blocking `Send` fails after close.) -/
theorem trySend_ignores_closed (α : Type) (ch : Chan α) (v : α) :
    ((SpscSender.TrySend ch v).1 = false ↔
      SpscCircularQueue.Full ch.queue = true) ∧
    ((MpscSender.TrySend ch v).1 = false ↔
      MpscCircularQueue.Full ch.queue = true) ∧
    ((SpmcSender.TrySend ch v).1 = false ↔
      SpmcCircularQueue.Full ch.queue = true) ∧
    ((MpmcSender.TrySend ch v).1 = false ↔
      MpmcCircularQueue.Full ch.queue = true) := by
  by_cases hfull : ch.queue.tail - ch.queue.head ≥ ch.queue.capacity <;>
    simp [SpscSender.TrySend, MpscSender.TrySend, SpmcSender.TrySend,
      MpmcSender.TrySend, SpscCircularQueue.TryPush, MpscCircularQueue.TryPush,
      SpmcCircularQueue.TryPush, MpmcCircularQueue.TryPush,
      SpscCircularQueue.Full, MpscCircularQueue.Full, SpmcCircularQueue.Full,
      MpmcCircularQueue.Full, hfull]

/-! ## Claim C5 -/

/-- C5: on every channel variant, `Send` on a channel whose closed flag is
already set returns `false` on its first loop-condition check — with any
remaining fuel — and leaves the channel (indices and slots) unchanged. -/
theorem send_after_close_fails_unchanged (α : Type) (ch : Chan α) (v : α)
    (fuel : Nat) (hclosed : ch.closed = true) :
    SpscSender.Send (fuel + 1) ch v = some (false, ch) ∧
    MpscSender.Send (fuel + 1) ch v = some (false, ch) ∧
    SpmcSender.Send (fuel + 1) ch v = some (false, ch) ∧
    MpmcSender.Send (fuel + 1) ch v = some (false, ch) := by
  refine ⟨?_, ?_, ?_, ?_⟩ <;>
    simp [SpscSender.Send, MpscSender.Send, SpmcSender.Send,
      MpmcSender.Send, hclosed]

/-- C5 (witness): a closed capacity-2 channel rejects `Send` at once. -/
theorem send_after_close_fails_unchanged_witness :
    (SpscSender.Close (Chan.init Nat 2)).closed = true ∧
    SpscSender.Send 1 (SpscSender.Close (Chan.init Nat 2)) 5 =
      some (false, SpscSender.Close (Chan.init Nat 2)) :=
  ⟨rfl, (send_after_close_fails_unchanged Nat
    (SpscSender.Close (Chan.init Nat 2)) 5 0 rfl).1⟩

/-! ## Claim C8 -/

namespace SpscCircularQueue

/-- Push a list of values one after the other, collecting each `TryPush`
result. -/
def pushAll : QueueState α → List α → List Bool × QueueState α
  | q, [] => ([], q)
  | q, v :: vs =>
    let r := TryPush q v
    let rest := pushAll r.2 vs
    (r.1 :: rest.1, rest.2)

/-- Pushing a batch that fits into the remaining space succeeds throughout
and advances `tail` by the batch length. -/
theorem pushAll_spec {q : QueueState α} (hq : Inv q) (vs : List α)
    (hfit : q.tail - q.head + vs.length ≤ q.capacity) :
    (pushAll q vs).1 = List.replicate vs.length true ∧
    Inv (pushAll q vs).2 ∧
    (pushAll q vs).2.capacity = q.capacity ∧
    (pushAll q vs).2.head = q.head ∧
    (pushAll q vs).2.tail = q.tail + vs.length := by
  induction vs generalizing q with
  | nil => exact ⟨rfl, hq, rfl, rfl, rfl⟩
  | cons v vs ih =>
    have hht := hq.2.2.1
    have hfull : q.tail - q.head < q.capacity := by
      simp only [List.length_cons] at hfit
      omega
    obtain ⟨h1, h2, h3, h4, h5, h6⟩ := window_push hq hfull v
    have hfit2 : (TryPush q v).2.tail - (TryPush q v).2.head + vs.length ≤
        (TryPush q v).2.capacity := by
      rw [h2, h3, h4]
      simp only [List.length_cons] at hfit
      omega
    obtain ⟨ih1, ih2, ih3, ih4, ih5⟩ := ih (inv_push hq v) hfit2
    refine ⟨?_, ih2, ?_, ?_, ?_⟩
    · simp only [pushAll, ih1, h1, List.length_cons, List.replicate_succ]
    · simp only [pushAll, ih3, h2]
    · simp only [pushAll, ih4, h3]
    · simp only [pushAll, ih5, h4, List.length_cons]
      omega

end SpscCircularQueue

/-- C8: a channel constructed with capacity `n` has effective capacity
`max n 1` (capacity 0 is coerced to 1); from the empty state a batch of
exactly that many `TryPush` calls all succeed, the next `TryPush` is
rejected, and after a single `TryPop` the next `TryPush` succeeds again. -/
theorem capacity_coercion_fill (α : Type) (n : Nat) (vs : List α) (v w : α)
    (hlen : vs.length = (QueueState.init α n).capacity) :
    (QueueState.init α n).capacity = max n 1 ∧
    (SpscCircularQueue.pushAll (QueueState.init α n) vs).1 =
      List.replicate vs.length true ∧
    (SpscCircularQueue.TryPush
      (SpscCircularQueue.pushAll (QueueState.init α n) vs).2 v).1 = false ∧
    (SpscCircularQueue.TryPush
      (SpscCircularQueue.TryPop
        (SpscCircularQueue.pushAll (QueueState.init α n) vs).2).2 w).1 =
      true := by
  have hcap : (QueueState.init α n).capacity = max n 1 := by
    simp only [QueueState.init]
    split <;> omega
  have hcappos : 1 ≤ (QueueState.init α n).capacity := by rw [hcap]; omega
  have hinv := SpscCircularQueue.inv_init α n
  have hfit : (QueueState.init α n).tail - (QueueState.init α n).head +
      vs.length ≤ (QueueState.init α n).capacity := by
    rw [hlen]
    simp [QueueState.init]
  obtain ⟨hall, hinvf, hcapf, hheadf, htailf⟩ :=
    SpscCircularQueue.pushAll_spec hinv vs hfit
  have hhead0 : (QueueState.init α n).head = 0 := rfl
  have htail0 : (QueueState.init α n).tail = 0 := rfl
  rw [hhead0] at hheadf
  rw [htail0] at htailf
  have hfullf : (SpscCircularQueue.pushAll (QueueState.init α n) vs).2.tail -
      (SpscCircularQueue.pushAll (QueueState.init α n) vs).2.head ≥
      (SpscCircularQueue.pushAll (QueueState.init α n) vs).2.capacity := by
    rw [htailf, hheadf, hcapf, hlen]
    omega
  refine ⟨hcap, hall, ?_, ?_⟩
  · rw [SpscCircularQueue.TryPush, if_pos hfullf]
  · have hne : (SpscCircularQueue.pushAll (QueueState.init α n) vs).2.tail ≠
        (SpscCircularQueue.pushAll (QueueState.init α n) vs).2.head := by
      rw [htailf, hheadf, hlen]
      omega
    obtain ⟨u, _, p2, p3, p4, _, _⟩ := SpscCircularQueue.window_pop hinvf hne
    have hnotfull : ¬ ((SpscCircularQueue.TryPop
        (SpscCircularQueue.pushAll (QueueState.init α n) vs).2).2.tail -
        (SpscCircularQueue.TryPop
          (SpscCircularQueue.pushAll (QueueState.init α n) vs).2).2.head ≥
        (SpscCircularQueue.TryPop
          (SpscCircularQueue.pushAll (QueueState.init α n) vs).2).2.capacity) := by
      rw [p2, p3, p4, htailf, hheadf, hcapf, hlen]
      omega
    rw [SpscCircularQueue.TryPush, if_neg hnotfull]

/-- C8 (witness): capacity 0 is coerced to 1; one push fills it, the second
is rejected, and a pop reopens space. -/
theorem capacity_coercion_fill_witness :
    (1 : Nat) = (QueueState.init Nat 0).capacity ∧
    ((QueueState.init Nat 0).capacity = max 0 1 ∧
      (SpscCircularQueue.pushAll (QueueState.init Nat 0) [9]).1 =
        List.replicate 1 true ∧
      (SpscCircularQueue.TryPush
        (SpscCircularQueue.pushAll (QueueState.init Nat 0) [9]).2 7).1 =
        false ∧
      (SpscCircularQueue.TryPush
        (SpscCircularQueue.TryPop
          (SpscCircularQueue.pushAll (QueueState.init Nat 0) [9]).2).2 8).1 =
        true) :=
  ⟨rfl, capacity_coercion_fill Nat 0 [9] 7 8 rfl⟩

/-! ## Claim C9 -/

/-- C9: on every channel variant and for every capacity `C ≥ 1`, every state
reachable from a fresh queue by `TryPush`/`TryPop`/`Clear` satisfies
`0 ≤ tail - head ≤ C` (the lower bound is inherent to `Nat`, stated here as
`head ≤ tail`), and `Size()` returns a value in `[0, C]`; the four variants
run the same sequential step functions. -/
theorem queue_size_invariant (α : Type) (C : Nat) (hC : 1 ≤ C)
    (ops : List (AdminOp α)) :
    (SpscCircularQueue.runAdmin (QueueState.init α C) ops).head ≤
      (SpscCircularQueue.runAdmin (QueueState.init α C) ops).tail ∧
    (SpscCircularQueue.runAdmin (QueueState.init α C) ops).tail -
      (SpscCircularQueue.runAdmin (QueueState.init α C) ops).head ≤ C ∧
    SpscCircularQueue.Size (SpscCircularQueue.runAdmin
      (QueueState.init α C) ops) ≤ C ∧
    @MpscCircularQueue.Size α = @SpscCircularQueue.Size α ∧
    @SpmcCircularQueue.Size α = @SpscCircularQueue.Size α ∧
    @MpmcCircularQueue.Size α = @SpscCircularQueue.Size α ∧
    @MpscCircularQueue.TryPush α = @SpscCircularQueue.TryPush α ∧
    @SpmcCircularQueue.TryPush α = @SpscCircularQueue.TryPush α ∧
    @MpmcCircularQueue.TryPush α = @SpscCircularQueue.TryPush α ∧
    @MpscCircularQueue.TryPop α = @SpscCircularQueue.TryPop α ∧
    @SpmcCircularQueue.TryPop α = @SpscCircularQueue.TryPop α ∧
    @MpmcCircularQueue.TryPop α = @SpscCircularQueue.TryPop α ∧
    @MpscCircularQueue.Clear α = @SpscCircularQueue.Clear α ∧
    @SpmcCircularQueue.Clear α = @SpscCircularQueue.Clear α ∧
    @MpmcCircularQueue.Clear α = @SpscCircularQueue.Clear α := by
  have hcap : (QueueState.init α C).capacity = C := by
    simp only [QueueState.init]
    split <;> omega
  have h0 : SpscCircularQueue.CounterInv (QueueState.init α C) := by
    constructor <;> simp [QueueState.init]
  obtain ⟨⟨ha, hb⟩, hc⟩ := SpscCircularQueue.counterInv_runAdmin h0 ops
  rw [hcap] at hc
  refine ⟨ha, by rw [hc] at hb; exact hb, ?_,
    rfl, rfl, rfl, rfl, rfl, rfl, rfl, rfl, rfl, rfl, rfl, rfl⟩
  calc SpscCircularQueue.Size (SpscCircularQueue.runAdmin
      (QueueState.init α C) ops) ≤
      (SpscCircularQueue.runAdmin (QueueState.init α C) ops).capacity :=
        SpscCircularQueue.size_le_capacity _
    _ = C := hc

/-- C9 (witness): capacity 2, a concrete push/push/pop/clear/push run. -/
theorem queue_size_invariant_witness :
    (1 ≤ 2) ∧
    ((SpscCircularQueue.runAdmin (QueueState.init Nat 2)
      [AdminOp.push 3, AdminOp.push 4, AdminOp.pop, AdminOp.clear,
        AdminOp.push 5]).head ≤
      (SpscCircularQueue.runAdmin (QueueState.init Nat 2)
        [AdminOp.push 3, AdminOp.push 4, AdminOp.pop, AdminOp.clear,
          AdminOp.push 5]).tail) :=
  ⟨by omega, (queue_size_invariant Nat 2 (by omega)
    [AdminOp.push 3, AdminOp.push 4, AdminOp.pop, AdminOp.clear,
      AdminOp.push 5]).1⟩

/-! ## Claim C3 -/

/-- C3: for every capacity `C ≥ 1`, the sequential behaviour of the circular
queue refines a bounded FIFO queue of capacity `C`: running any push/pop
program from the fresh state produces the same push results, the same pop
results and the same (abstracted) contents as the spec-side bounded FIFO; the
popped values are a prefix of the committed pushes in push order; pushing
into the empty queue and popping returns the pushed value; and the other
three variants run the same sequential step functions. -/
theorem spsc_refines_bounded_fifo (α : Type) (C : Nat) (hC : 1 ≤ C)
    (ops : List (ChanOp α)) :
    (SpscCircularQueue.abs
        (SpscCircularQueue.runOps (QueueState.init α C) ops).1 =
      (BoundedFifo.runOps C ([] : List α) ops).1 ∧
    (SpscCircularQueue.runOps (QueueState.init α C) ops).2.1 =
      (BoundedFifo.runOps C ([] : List α) ops).2.1 ∧
    (SpscCircularQueue.runOps (QueueState.init α C) ops).2.2 =
      (BoundedFifo.runOps C ([] : List α) ops).2.2) ∧
    (∃ rest, (SpscCircularQueue.runOps (QueueState.init α C) ops).2.2 ++
      rest = (SpscCircularQueue.runOps (QueueState.init α C) ops).2.1) ∧
    (∀ v : α, (SpscCircularQueue.TryPop
      (SpscCircularQueue.TryPush (QueueState.init α C) v).2).1 = some v) ∧
    @MpscCircularQueue.TryPush α = @SpscCircularQueue.TryPush α ∧
    @SpmcCircularQueue.TryPush α = @SpscCircularQueue.TryPush α ∧
    @MpmcCircularQueue.TryPush α = @SpscCircularQueue.TryPush α ∧
    @MpscCircularQueue.TryPop α = @SpscCircularQueue.TryPop α ∧
    @SpmcCircularQueue.TryPop α = @SpscCircularQueue.TryPop α ∧
    @MpmcCircularQueue.TryPop α = @SpscCircularQueue.TryPop α := by
  have hinv := SpscCircularQueue.inv_init α C
  have hcap : (QueueState.init α C).capacity = C := by
    simp only [QueueState.init]
    split <;> omega
  have habs0 : SpscCircularQueue.abs (QueueState.init α C) = [] := by
    simp [SpscCircularQueue.abs, SpscCircularQueue.window, QueueState.init]
  obtain ⟨r1, r2, r3, r4, r5⟩ := SpscCircularQueue.run_sim hinv ops
  rw [hcap] at r2 r3 r4
  rw [habs0] at r2 r3 r4 r5
  refine ⟨⟨r2, r3, r4⟩, ?_, ?_, rfl, rfl, rfl, rfl, rfl, rfl⟩
  · exact ⟨SpscCircularQueue.abs
      (SpscCircularQueue.runOps (QueueState.init α C) ops).1,
      by rw [r5]; simp⟩
  · intro v
    have hfull : (QueueState.init α C).tail - (QueueState.init α C).head <
        (QueueState.init α C).capacity := by
      rw [hcap]
      simp only [QueueState.init]
      omega
    have habs1 := SpscCircularQueue.abs_push hinv hfull v
    rw [habs0] at habs1
    have hinv1 := SpscCircularQueue.inv_push hinv v
    have hne : (SpscCircularQueue.TryPush (QueueState.init α C) v).2.tail ≠
        (SpscCircularQueue.TryPush (QueueState.init α C) v).2.head := by
      obtain ⟨_, _, h3, h4, _, _⟩ := SpscCircularQueue.window_push hinv hfull v
      rw [h3, h4]
      simp [QueueState.init]
    obtain ⟨u, hu1, hu2⟩ := SpscCircularQueue.abs_pop hinv1 hne
    rw [habs1] at hu2
    have : u = v := by
      exact List.head_eq_of_cons_eq hu2.symm
    rw [hu1, this]

/-- C3 (witness): capacity 2, program push 7; push 8; pop — outputs and
abstraction agree with the bounded FIFO. -/
theorem spsc_refines_bounded_fifo_witness :
    (1 ≤ 2) ∧
    (SpscCircularQueue.abs
        (SpscCircularQueue.runOps (QueueState.init Nat 2)
          [ChanOp.push 7, ChanOp.push 8, ChanOp.pop]).1 =
      (BoundedFifo.runOps 2 ([] : List Nat)
        [ChanOp.push 7, ChanOp.push 8, ChanOp.pop]).1) :=
  ⟨by omega, (spsc_refines_bounded_fifo Nat 2 (by omega)
    [ChanOp.push 7, ChanOp.push 8, ChanOp.pop]).1.1⟩

/-! ## Claim C4 -/

/-- C4: on a channel whose closed flag is set, `Recv` performs exactly one
final `TryPop` (for any remaining fuel): it returns the oldest buffered value
and removes it whenever the buffer is non-empty, and returns `none` exactly
when the buffer is empty; the other three variants run the same `Recv`. -/
theorem recv_after_close_drains (α : Type) (ch : Chan α) (fuel : Nat)
    (hInv : SpscCircularQueue.Inv ch.queue) (hclosed : ch.closed = true) :
    SpscReceiver.Recv (fuel + 1) ch = some (SpscReceiver.TryRecv ch) ∧
    ((SpscReceiver.TryRecv ch).1 = none ↔
      SpscCircularQueue.abs ch.queue = []) ∧
    (∀ v l, SpscCircularQueue.abs ch.queue = v :: l →
      (SpscReceiver.TryRecv ch).1 = some v ∧
      SpscCircularQueue.abs (SpscReceiver.TryRecv ch).2.queue = l) ∧
    @MpscReceiver.Recv α = @SpscReceiver.Recv α ∧
    @SpmcReceiver.Recv α = @SpscReceiver.Recv α ∧
    @MpmcReceiver.Recv α = @SpscReceiver.Recv α := by
  obtain ⟨hp1, hp2⟩ := SpscCircularQueue.pop_sim hInv
  refine ⟨?_, ?_, ?_, mpscRecv_eq_spscRecv α, spmcRecv_eq_spscRecv α,
    mpmcRecv_eq_spscRecv α⟩
  · simp [SpscReceiver.Recv, SpscReceiver.TryRecv, hclosed]
  · rw [SpscReceiver.TryRecv]
    dsimp only
    rw [hp1]
    cases habs : SpscCircularQueue.abs ch.queue with
    | nil => simp [BoundedFifo.pop]
    | cons x xs => simp [BoundedFifo.pop]
  · intro v l habs
    rw [SpscReceiver.TryRecv]
    dsimp only
    rw [habs] at hp1 hp2
    exact ⟨by rw [hp1]; rfl, by rw [hp2]; rfl⟩

/-- C4 (witness): a closed channel holding the single value 7 yields
`some 7` from `Recv` and then reports empty. -/
theorem recv_after_close_drains_witness :
    SpscCircularQueue.Inv
      (SpscCircularQueue.TryPush (QueueState.init Nat 2) 7).2 ∧
    (SpscReceiver.TryRecv
      { queue := (SpscCircularQueue.TryPush (QueueState.init Nat 2) 7).2,
        closed := true }).1 = some 7 :=
  ⟨by decide,
    ((recv_after_close_drains Nat
      { queue := (SpscCircularQueue.TryPush (QueueState.init Nat 2) 7).2,
        closed := true } 0 (by decide) rfl).2.2.1 7 [] (by decide)).1⟩

/-! ## Lemmas about the timer index structures -/

namespace AsyncTimer

theorem mem_emplaceByTime_self (e : Nat × Nat) (l : List (Nat × Nat)) :
    e ∈ emplaceByTime e l := by
  induction l with
  | nil => simp [emplaceByTime]
  | cons x xs ih =>
    rw [emplaceByTime]
    split
    · exact List.mem_cons_of_mem _ ih
    · exact List.mem_cons_self _ _

theorem mem_emplaceByTime_of_mem {x : Nat × Nat} (e : Nat × Nat)
    {l : List (Nat × Nat)} (h : x ∈ l) : x ∈ emplaceByTime e l := by
  induction l with
  | nil => cases h
  | cons y ys ih =>
    rw [emplaceByTime]
    split
    · rcases List.mem_cons.mp h with h1 | h2
      · exact h1 ▸ List.mem_cons_self _ _
      · exact List.mem_cons_of_mem _ (ih h2)
    · exact List.mem_cons_of_mem _ h

theorem lookup_insertById_self (id : Nat) (task : TimerTask)
    (m : List (Nat × TimerTask)) :
    lookupById id (insertById id task m) = some task := by
  induction m with
  | nil => simp [insertById, lookupById]
  | cons x xs ih =>
    rw [insertById]
    split
    · rw [lookupById, if_neg (by omega)]
      exact ih
    · split
      · rw [lookupById, if_pos rfl]
      · rw [lookupById, if_pos rfl]

theorem lookup_insertById_ne {id idOther : Nat} (h : id ≠ idOther)
    (task : TimerTask) (m : List (Nat × TimerTask)) :
    lookupById id (insertById idOther task m) = lookupById id m := by
  induction m with
  | nil => simp [insertById, lookupById, Ne.symm h]
  | cons x xs ih =>
    rw [insertById]
    split
    · rw [lookupById, lookupById]
      split
      · rfl
      · exact ih
    · split
      · rename_i hlt heq
        rw [lookupById, if_neg (by omega), lookupById, if_neg (by omega)]
      · rw [lookupById, if_neg (by omega)]
  -- the last branch inserts in front without consuming `x`

theorem lookup_eraseById_ne {id idOther : Nat} (h : id ≠ idOther)
    (m : List (Nat × TimerTask)) :
    lookupById id (eraseById idOther m) = lookupById id m := by
  induction m with
  | nil => rfl
  | cons x xs ih =>
    rw [eraseById]
    split
    · rename_i hx
      rw [lookupById, if_neg (by omega)]
    · rw [lookupById, lookupById]
      split
      · rfl
      · exact ih

/-- Every task collected by the reap loop was looked up in the id map from
one of the walked entries, and was not cancelled at collection time. -/
theorem mem_collectExpired {now : Nat} {m : List (Nat × TimerTask)}
    {l : List (Nat × Nat)} {t : TimerTask} (h : t ∈ collectExpired now m l) :
    t.isCancelled = false ∧ ∃ e ∈ l, lookupById e.2 m = some t := by
  induction l with
  | nil => cases h
  | cons e rest ih =>
    rw [collectExpired] at h
    split at h
    · rcases List.mem_append.mp h with h1 | h2
      · split at h1
        · rename_i task hl
          split at h1
          · rename_i hnc
            simp only [List.mem_singleton] at h1
            subst h1
            exact ⟨by simpa using hnc, e, List.mem_cons_self _ _, hl⟩
          · cases h1
        · cases h1
      · obtain ⟨hc, e', he', hl'⟩ := ih h2
        exact ⟨hc, e', List.mem_cons_of_mem _ he', hl'⟩
    · cases h

/-- A well-formed id map stores each task under its own id. -/
theorem lookupById_id_eq {m : List (Nat × TimerTask)}
    (hWF : ∀ e ∈ m, e.2.id = e.1) (i : Nat) (t : TimerTask)
    (hl : lookupById i m = some t) : t.id = i := by
  induction m with
  | nil => cases hl
  | cons x xs ih =>
    rw [lookupById] at hl
    split at hl
    · rename_i hx
      have := hWF x (List.mem_cons_self _ _)
      cases hl
      omega
    · exact ih (fun e he => hWF e (List.mem_cons_of_mem _ he)) hl

/-- When the walked prefix of `by_time` is key-sorted with pairwise-distinct
ids, a non-cancelled expired task is collected exactly once, and every other
collected task carries a different id. -/
theorem collectExpired_split {now : Nat} {m : List (Nat × TimerTask)}
    {l : List (Nat × Nat)} {time id : Nat} {task : TimerTask}
    (hsorted : l.Pairwise (fun a b => a.1 ≤ b.1))
    (hids : (l.map (fun e => e.2)).Nodup)
    (hmem : (time, id) ∈ l) (hexp : time ≤ now)
    (hlook : lookupById id m = some task)
    (hcanc : task.isCancelled = false)
    (hWF : ∀ e ∈ m, e.2.id = e.1) :
    ∃ L1 L2, collectExpired now m l = L1 ++ task :: L2 ∧
      ∀ t ∈ L1 ++ L2, t.id ≠ id := by
  induction l with
  | nil => cases hmem
  | cons e rest ih =>
    have hsorted2 := (List.pairwise_cons.mp hsorted).2
    have hsorted1 := (List.pairwise_cons.mp hsorted).1
    have hids2 : (rest.map (fun e => e.2)).Nodup := by
      rw [List.map_cons, List.nodup_cons] at hids
      exact hids.2
    have hids1 : e.2 ∉ rest.map (fun e => e.2) := by
      rw [List.map_cons, List.nodup_cons] at hids
      exact hids.1
    rcases List.mem_cons.mp hmem with heq | hrest
    · -- the walked entry is ours
      have he1 : e.1 = time := by rw [← heq]
      have he2 : e.2 = id := by rw [← heq]
      rw [collectExpired, if_pos (by omega), he2, hlook]
      refine ⟨[], collectExpired now m rest, by simp [hcanc], ?_⟩
      intro t ht
      simp only [List.nil_append] at ht
      obtain ⟨_, e', he', hl'⟩ := mem_collectExpired ht
      have hid' : t.id = e'.2 := lookupById_id_eq hWF _ _ hl'
      rw [hid']
      intro hcontra
      exact hids1 (by
        rw [he2, ← hcontra] at hids1 ⊢
        exact List.mem_map_of_mem _ he')
    · -- ours lies further on; the head entry is also expired by sortedness
      have hle : e.1 ≤ time := hsorted1 _ hrest
      have hid_ne : e.2 ≠ id := by
        intro hcontra
        exact hids1 (hcontra ▸ List.mem_map_of_mem (fun e => e.2) hrest)
      obtain ⟨L1, L2, hcol, hprop⟩ := ih hsorted2 hids2 hrest
      rw [collectExpired, if_pos (by omega), hcol]
      cases hl : lookupById e.2 m with
      | none =>
        exact ⟨L1, L2, by simp, hprop⟩
      | some task2 =>
        cases hcanc2 : task2.isCancelled with
        | true =>
          exact ⟨L1, L2, by simp [hcanc2], hprop⟩
        | false =>
          refine ⟨task2 :: L1, L2, by simp [hcanc2], ?_⟩
          intro t ht
          rw [List.cons_append] at ht
          rcases List.mem_cons.mp ht with h1 | h2
          · subst h1
            rw [lookupById_id_eq hWF _ _ hl]
            exact hid_ne
          · exact hprop t h2

/-- The reschedule loop processes an appended list in two stages. -/
theorem rescheduleLoop_append (now : Nat) (L1 L2 : List TimerTask)
    (st : List (Nat × Nat) × List (Nat × TimerTask)) :
    rescheduleLoop now (L1 ++ L2) st =
      rescheduleLoop now L2 (rescheduleLoop now L1 st) := by
  induction L1 generalizing st with
  | nil => rfl
  | cons t rest ih =>
    obtain ⟨bt, bid⟩ := st
    rw [List.cons_append, rescheduleLoop, rescheduleLoop]
    split
    · exact ih _
    · split
      · exact ih _
      · exact ih _

/-- Processing tasks whose ids all differ from `id` keeps any `id`-keyed
`by_time` entry present and the `id` entry of `by_id` untouched. -/
theorem rescheduleLoop_preserves {now : Nat} {L : List TimerTask} {id : Nat}
    (hL : ∀ t ∈ L, t.id ≠ id) (byTime : List (Nat × Nat))
    (byId : List (Nat × TimerTask)) (en : Nat × Nat) (tk : TimerTask)
    (hx : en ∈ byTime) (hm : lookupById id byId = some tk) :
    en ∈ (rescheduleLoop now L (byTime, byId)).1 ∧
    lookupById id (rescheduleLoop now L (byTime, byId)).2 = some tk := by
  induction L generalizing byTime byId with
  | nil => exact ⟨hx, hm⟩
  | cons t rest ih =>
    have hne : t.id ≠ id := hL t (List.mem_cons_self _ _)
    have hrest : ∀ t' ∈ rest, t'.id ≠ id :=
      fun t' ht' => hL t' (List.mem_cons_of_mem _ ht')
    rw [rescheduleLoop]
    split
    · exact ih hrest _ _ (mem_emplaceByTime_of_mem _ hx)
        (by rw [lookup_insertById_ne (Ne.symm hne)]; exact hm)
    · split
      · exact ih hrest _ _ hx
          (by rw [lookup_eraseById_ne (Ne.symm hne)]; exact hm)
      · exact ih hrest _ _ hx hm

end AsyncTimer

/-! ## Claim C2 -/

/-- C2 (counterexample): schedule a one-shot for +100ms at t=0, cancel it
(successfully), run the worker at t=250.  The claim predicts
`GetActiveTimerCount() = 0`; in the code the cancelled task is dropped from
`timerTasks_` (by_time) during the reap but never erased from `timerMap_`
(by_id) — the erase in the reschedule loop only runs for tasks that were
collected, and cancelled tasks are excluded from the collection — so the
count is 1. -/
theorem cancel_reap_counterexample :
    (AsyncTimer.ScheduleOnce true 100 0
      (AsyncTimer.Start AsyncTimer.initState)).1 = 1 ∧
    (AsyncTimer.Cancel 1
      (AsyncTimer.ScheduleOnce true 100 0
        (AsyncTimer.Start AsyncTimer.initState)).2).1 = true ∧
    AsyncTimer.GetActiveTimerCount
      (AsyncTimer.ExecuteExpiredTimers 250
        (AsyncTimer.Cancel 1
          (AsyncTimer.ScheduleOnce true 100 0
            (AsyncTimer.Start AsyncTimer.initState)).2).2).1 = 1 := by
  decide

/-- C2 (amended): when the worker reaps an expired task whose cancelled flag
is set, the task is removed from the time-ordered index (`by_time`) only; it
is never erased from the id map (`by_id`).  Consequently, after
`ScheduleOnce(cb, d)` at `t1` followed by a successful `Cancel(id)`, once the
deadline has passed and the worker has run, the callback was never submitted
and `by_time` is empty, but `GetActiveTimerCount()` returns 1, the cancelled
record lingering in `by_id`. -/
theorem cancelled_task_lingers_in_by_id (d t1 t2 : Nat)
    (hexp : t1 + d ≤ t2) :
    (AsyncTimer.Cancel
      (AsyncTimer.ScheduleOnce true d t1 (AsyncTimer.Start AsyncTimer.initState)).1
      (AsyncTimer.ScheduleOnce true d t1 (AsyncTimer.Start AsyncTimer.initState)).2).1
      = true ∧
    (AsyncTimer.ExecuteExpiredTimers t2
      (AsyncTimer.Cancel
        (AsyncTimer.ScheduleOnce true d t1 (AsyncTimer.Start AsyncTimer.initState)).1
        (AsyncTimer.ScheduleOnce true d t1 (AsyncTimer.Start AsyncTimer.initState)).2).2).2
      = [] ∧
    (AsyncTimer.ExecuteExpiredTimers t2
      (AsyncTimer.Cancel
        (AsyncTimer.ScheduleOnce true d t1 (AsyncTimer.Start AsyncTimer.initState)).1
        (AsyncTimer.ScheduleOnce true d t1 (AsyncTimer.Start AsyncTimer.initState)).2).2).1.timerTasks
      = [] ∧
    AsyncTimer.GetActiveTimerCount
      (AsyncTimer.ExecuteExpiredTimers t2
        (AsyncTimer.Cancel
          (AsyncTimer.ScheduleOnce true d t1 (AsyncTimer.Start AsyncTimer.initState)).1
          (AsyncTimer.ScheduleOnce true d t1 (AsyncTimer.Start AsyncTimer.initState)).2).2).1
      = 1 ∧
    AsyncTimer.lookupById 1
      (AsyncTimer.ExecuteExpiredTimers t2
        (AsyncTimer.Cancel
          (AsyncTimer.ScheduleOnce true d t1 (AsyncTimer.Start AsyncTimer.initState)).1
          (AsyncTimer.ScheduleOnce true d t1 (AsyncTimer.Start AsyncTimer.initState)).2).2).1.timerMap
      = some { id := 1, nextExecutionTime := t1 + d, interval := 0,
               isRepeating := false, isCancelled := true } := by
  refine ⟨?_, ?_, ?_, ?_, ?_⟩ <;>
    simp [AsyncTimer.Start, AsyncTimer.initState, AsyncTimer.ScheduleOnce,
      AsyncTimer.GenerateTimerId, AsyncTimer.emplaceByTime,
      AsyncTimer.insertById, AsyncTimer.Cancel, AsyncTimer.lookupById,
      AsyncTimer.ExecuteExpiredTimers, AsyncTimer.collectExpired,
      AsyncTimer.rescheduleLoop, AsyncTimer.GetActiveTimerCount,
      List.dropWhile, hexp]

/-- C2 (amended, witness): the concrete run d=100, t1=0, t2=250. -/
theorem cancelled_task_lingers_in_by_id_witness :
    ((0 : Nat) + 100 ≤ 250) ∧
    AsyncTimer.GetActiveTimerCount
      (AsyncTimer.ExecuteExpiredTimers 250
        (AsyncTimer.Cancel
          (AsyncTimer.ScheduleOnce true 100 0
            (AsyncTimer.Start AsyncTimer.initState)).1
          (AsyncTimer.ScheduleOnce true 100 0
            (AsyncTimer.Start AsyncTimer.initState)).2).2).1 = 1 :=
  ⟨by omega, (cancelled_task_lingers_in_by_id 100 0 250 (by omega)).2.2.2.1⟩

/-! ## Claim C6 -/

/-- C6: every repeating, non-cancelled task reaped at instant `now` (read
once at the start of the reap) is reinserted into the time-ordered index
under its own id with the new deadline `now + interval` — fixed-delay, not
`previous_deadline + interval` — and its record in the id map is updated
accordingly. -/
theorem repeating_fixed_delay_reschedule (s : AsyncTimer.TimerState)
    (now time id : Nat) (task : AsyncTimer.TimerTask)
    (hsorted : s.timerTasks.Pairwise (fun a b => a.1 ≤ b.1))
    (hids : (s.timerTasks.map (fun e => e.2)).Nodup)
    (hWF : ∀ e ∈ s.timerMap, e.2.id = e.1)
    (hmem : (time, id) ∈ s.timerTasks) (hexp : time ≤ now)
    (hlook : AsyncTimer.lookupById id s.timerMap = some task)
    (hrep : task.isRepeating = true) (hcanc : task.isCancelled = false) :
    (now + task.interval, id) ∈
      (AsyncTimer.ExecuteExpiredTimers now s).1.timerTasks ∧
    AsyncTimer.lookupById id
      (AsyncTimer.ExecuteExpiredTimers now s).1.timerMap =
      some { task with nextExecutionTime := now + task.interval } := by
  obtain ⟨L1, L2, hcol, hprop⟩ :=
    AsyncTimer.collectExpired_split hsorted hids hmem hexp hlook hcanc hWF
  have hid : task.id = id := AsyncTimer.lookupById_id_eq hWF _ _ hlook
  have hexec1 : (AsyncTimer.ExecuteExpiredTimers now s).1.timerTasks =
      (AsyncTimer.rescheduleLoop now
        (AsyncTimer.collectExpired now s.timerMap s.timerTasks)
        (s.timerTasks.dropWhile (fun e => e.1 ≤ now), s.timerMap)).1 := rfl
  have hexec2 : (AsyncTimer.ExecuteExpiredTimers now s).1.timerMap =
      (AsyncTimer.rescheduleLoop now
        (AsyncTimer.collectExpired now s.timerMap s.timerTasks)
        (s.timerTasks.dropWhile (fun e => e.1 ≤ now), s.timerMap)).2 := rfl
  rw [hexec1, hexec2, hcol, AsyncTimer.rescheduleLoop_append,
    ← Prod.mk.eta (p := AsyncTimer.rescheduleLoop now L1
      (s.timerTasks.dropWhile (fun e => e.1 ≤ now), s.timerMap)),
    AsyncTimer.rescheduleLoop, if_pos (by simp [hcanc, hrep])]
  have hL2 : ∀ t ∈ L2, t.id ≠ id :=
    fun t ht => hprop t (List.mem_append.mpr (Or.inr ht))
  refine AsyncTimer.rescheduleLoop_preserves hL2 _ _ _ _ ?_ ?_
  · rw [hid]
    exact AsyncTimer.mem_emplaceByTime_self _ _
  · rw [hid]
    exact AsyncTimer.lookup_insertById_self _ _ _

/-- C6 (witness): one repeating task (id 3, interval 7, deadline 5) reaped at
`now = 10` reappears under deadline 17. -/
theorem repeating_fixed_delay_reschedule_witness :
    ((10 : Nat) + 7, 3) ∈
      (AsyncTimer.ExecuteExpiredTimers 10
        { running := true, nextTimerId := 4, timerTasks := [(5, 3)],
          timerMap := [(3, ⟨3, 5, 7, true, false⟩)] }).1.timerTasks :=
  (repeating_fixed_delay_reschedule
    { running := true, nextTimerId := 4, timerTasks := [(5, 3)],
      timerMap := [(3, ⟨3, 5, 7, true, false⟩)] }
    10 5 3 ⟨3, 5, 7, true, false⟩
    (by simp) (by simp) (by simp) (by simp) (by omega)
    (by simp [AsyncTimer.lookupById]) rfl rfl).1

/-! ## Claim C7 -/

namespace AsyncTimer

/-- A scheduling request: which of the two public scheduling calls to make,
with which arguments, at which instant. -/
inductive SchedReq where
  | once (cbValid : Bool) (delayMs now : Nat)
  | repeating (cbValid : Bool) (intervalMs initialDelayMs now : Nat)

/-- Issue a list of scheduling requests, collecting the returned ids. -/
def runScheds : TimerState → List SchedReq → TimerState × List Nat
  | s, [] => (s, [])
  | s, SchedReq.once cb d n :: reqs =>
    let r := ScheduleOnce cb d n s
    let rest := runScheds r.2 reqs
    (rest.1, r.1 :: rest.2)
  | s, SchedReq.repeating cb i d n :: reqs =>
    let r := ScheduleRepeating cb i d n s
    let rest := runScheds r.2 reqs
    (rest.1, r.1 :: rest.2)

theorem scheduleOnce_cases (cb : Bool) (d now : Nat) (s : TimerState) :
    ((ScheduleOnce cb d now s).1 = 0 ∧ (ScheduleOnce cb d now s).2 = s ∧
      (cb = false ∨ s.running = false)) ∨
    ((ScheduleOnce cb d now s).1 = s.nextTimerId ∧
      (ScheduleOnce cb d now s).2.nextTimerId = s.nextTimerId + 1 ∧
      cb = true ∧ s.running = true) := by
  cases cb with
  | false => exact Or.inl ⟨by simp [ScheduleOnce], by simp [ScheduleOnce],
      Or.inl rfl⟩
  | true =>
    cases hr : s.running with
    | false => exact Or.inl ⟨by simp [ScheduleOnce, hr],
        by simp [ScheduleOnce, hr], Or.inr rfl⟩
    | true => exact Or.inr ⟨by simp [ScheduleOnce, hr, GenerateTimerId],
        by simp [ScheduleOnce, hr, GenerateTimerId], rfl, rfl⟩

theorem scheduleRepeating_cases (cb : Bool) (i d now : Nat)
    (s : TimerState) :
    ((ScheduleRepeating cb i d now s).1 = 0 ∧
      (ScheduleRepeating cb i d now s).2 = s ∧
      (cb = false ∨ i = 0 ∨ s.running = false)) ∨
    ((ScheduleRepeating cb i d now s).1 = s.nextTimerId ∧
      (ScheduleRepeating cb i d now s).2.nextTimerId = s.nextTimerId + 1 ∧
      cb = true ∧ i ≠ 0 ∧ s.running = true) := by
  cases cb with
  | false => exact Or.inl ⟨by simp [ScheduleRepeating],
      by simp [ScheduleRepeating], Or.inl rfl⟩
  | true =>
    by_cases hi : i = 0
    · exact Or.inl ⟨by simp [ScheduleRepeating, hi],
        by simp [ScheduleRepeating, hi], Or.inr (Or.inl hi)⟩
    · cases hr : s.running with
      | false => exact Or.inl ⟨by simp [ScheduleRepeating, hi, hr],
          by simp [ScheduleRepeating, hi, hr], Or.inr (Or.inr rfl)⟩
      | true =>
        refine Or.inr ⟨?_, ?_, rfl, hi, rfl⟩
        · simp [ScheduleRepeating, hi, hr, GenerateTimerId]
        · simp [ScheduleRepeating, hi, hr, GenerateTimerId]

/-- Along any request sequence, the id counter never decreases, every
returned id is either the failure sentinel 0 or was drawn from the counter,
and the successful ids are strictly increasing. -/
theorem runScheds_ids (reqs : List SchedReq) (s : TimerState) :
    s.nextTimerId ≤ (runScheds s reqs).1.nextTimerId ∧
    (∀ i ∈ (runScheds s reqs).2,
      i = 0 ∨ (s.nextTimerId ≤ i ∧ i < (runScheds s reqs).1.nextTimerId)) ∧
    ((runScheds s reqs).2.filter (fun i => i != 0)).Pairwise
      (fun a b => a < b) := by
  induction reqs generalizing s with
  | nil => exact ⟨Nat.le_refl _, by simp [runScheds], by simp [runScheds]⟩
  | cons req reqs ih =>
    have hstep : ∃ r : Nat × TimerState,
        runScheds s (req :: reqs) =
          ((runScheds r.2 reqs).1, r.1 :: (runScheds r.2 reqs).2) ∧
        ((r.1 = 0 ∧ r.2 = s) ∨
          (r.1 = s.nextTimerId ∧ r.2.nextTimerId = s.nextTimerId + 1)) := by
      cases req with
      | once cb d n =>
        refine ⟨ScheduleOnce cb d n s, rfl, ?_⟩
        rcases scheduleOnce_cases cb d n s with ⟨h1, h2, _⟩ | ⟨h1, h2, _, _⟩
        · exact Or.inl ⟨h1, h2⟩
        · exact Or.inr ⟨h1, h2⟩
      | repeating cb i d n =>
        refine ⟨ScheduleRepeating cb i d n s, rfl, ?_⟩
        rcases scheduleRepeating_cases cb i d n s with
          ⟨h1, h2, _⟩ | ⟨h1, h2, _, _, _⟩
        · exact Or.inl ⟨h1, h2⟩
        · exact Or.inr ⟨h1, h2⟩
    obtain ⟨r, hrun, hcase⟩ := hstep
    obtain ⟨ihA, ihB, ihC⟩ := ih r.2
    have hfst : (runScheds s (req :: reqs)).1 = (runScheds r.2 reqs).1 := by
      rw [hrun]
    have hsnd : (runScheds s (req :: reqs)).2 =
        r.1 :: (runScheds r.2 reqs).2 := by
      rw [hrun]
    rcases hcase with ⟨h1, h2⟩ | ⟨h1, h2⟩
    · -- failed call: id 0, state unchanged
      have h2n : r.2.nextTimerId = s.nextTimerId := by rw [h2]
      refine ⟨by rw [hfst]; omega, ?_, ?_⟩
      · intro i hi
        rw [hsnd] at hi
        rcases List.mem_cons.mp hi with h | h
        · exact Or.inl (by rw [h, h1])
        · rcases ihB i h with h0 | ⟨hlo, hhi⟩
          · exact Or.inl h0
          · exact Or.inr ⟨by omega, by rw [hfst]; exact hhi⟩
      · rw [hsnd, h1]
        simpa using ihC
    · -- successful call: id drawn from the counter, counter bumped
      refine ⟨by rw [hfst]; omega, ?_, ?_⟩
      · intro i hi
        rw [hsnd] at hi
        rcases List.mem_cons.mp hi with h | h
        · have hi1 : i = s.nextTimerId := by rw [h, h1]
          exact Or.inr ⟨by omega, by rw [hfst]; omega⟩
        · rcases ihB i h with h0 | ⟨hlo, hhi⟩
          · exact Or.inl h0
          · exact Or.inr ⟨by omega, by rw [hfst]; exact hhi⟩
      · rw [hsnd, h1]
        by_cases h0 : s.nextTimerId = 0
        · simp only [List.filter_cons, h0]
          simpa using ihC
        · rw [List.filter_cons, if_pos (by simpa using h0)]
          rw [List.pairwise_cons]
          refine ⟨?_, ihC⟩
          intro j hj
          have hj2 := (List.mem_filter.mp hj).1
          have hj0 : j ≠ 0 := by simpa using (List.mem_filter.mp hj).2
          rcases ihB j hj2 with h | ⟨hlo, _⟩
          · exact absurd h hj0
          · omega

end AsyncTimer

/-- C7: `ScheduleOnce` returns the sentinel 0 exactly when the callback is
null or the timer is not running; `ScheduleRepeating` returns 0 exactly when
the callback is null, the interval is 0, or the timer is not running; the id
counter starts at 1, and across any sequence of scheduling calls the
successful ids are pairwise distinct (strictly increasing) values drawn from
the monotonic counter. -/
theorem schedule_id_contract :
    (∀ (cb : Bool) (d now : Nat) (s : AsyncTimer.TimerState),
      1 ≤ s.nextTimerId →
      ((AsyncTimer.ScheduleOnce cb d now s).1 = 0 ↔
        (cb = false ∨ s.running = false))) ∧
    (∀ (cb : Bool) (i d now : Nat) (s : AsyncTimer.TimerState),
      1 ≤ s.nextTimerId →
      ((AsyncTimer.ScheduleRepeating cb i d now s).1 = 0 ↔
        (cb = false ∨ i = 0 ∨ s.running = false))) ∧
    AsyncTimer.initState.nextTimerId = 1 ∧
    (∀ (s : AsyncTimer.TimerState) (reqs : List AsyncTimer.SchedReq),
      1 ≤ s.nextTimerId →
      ((AsyncTimer.runScheds s reqs).2.filter (fun i => i != 0)).Pairwise
        (fun a b => a < b) ∧
      ∀ i ∈ (AsyncTimer.runScheds s reqs).2, i ≠ 0 →
        1 ≤ i ∧ s.nextTimerId ≤ i) := by
  refine ⟨?_, ?_, rfl, ?_⟩
  · intro cb d now s hs
    rcases AsyncTimer.scheduleOnce_cases cb d now s with
      ⟨h1, _, h3⟩ | ⟨h1, _, h3, h4⟩
    · rw [h1]
      simp [h3]
    · rw [h1]
      constructor
      · intro h0
        omega
      · intro hcontra
        rcases hcontra with h | h
        · rw [h3] at h
          cases h
        · rw [h4] at h
          cases h
  · intro cb i d now s hs
    rcases AsyncTimer.scheduleRepeating_cases cb i d now s with
      ⟨h1, _, h3⟩ | ⟨h1, _, h3, h4, h5⟩
    · rw [h1]
      simp [h3]
    · rw [h1]
      constructor
      · intro h0
        omega
      · intro hcontra
        rcases hcontra with h | h | h
        · rw [h3] at h
          cases h
        · exact absurd h h4
        · rw [h5] at h
          cases h
  · intro s reqs hs
    obtain ⟨hA, hB, hC⟩ := AsyncTimer.runScheds_ids reqs s
    refine ⟨hC, ?_⟩
    intro i hi hi0
    rcases hB i hi with h | ⟨hlo, _⟩
    · exact absurd h hi0
    · exact ⟨by omega, hlo⟩

/-- C7 (witness): from a started fresh timer, a valid one-shot request does
not return 0, and a one-shot followed by a repeating request yields strictly
increasing nonzero ids. -/
theorem schedule_id_contract_witness :
    (1 ≤ (AsyncTimer.Start AsyncTimer.initState).nextTimerId) ∧
    ((AsyncTimer.ScheduleOnce true 5 0
        (AsyncTimer.Start AsyncTimer.initState)).1 = 0 ↔
      (true = false ∨ (AsyncTimer.Start AsyncTimer.initState).running = false)) ∧
    ((AsyncTimer.runScheds (AsyncTimer.Start AsyncTimer.initState)
        [AsyncTimer.SchedReq.once true 5 0,
         AsyncTimer.SchedReq.repeating true 10 0 0]).2.filter
      (fun i => i != 0)).Pairwise (fun a b => a < b) :=
  ⟨by decide,
   schedule_id_contract.1 true 5 0 (AsyncTimer.Start AsyncTimer.initState)
     (by decide),
   (schedule_id_contract.2.2.2 (AsyncTimer.Start AsyncTimer.initState)
     [AsyncTimer.SchedReq.once true 5 0,
      AsyncTimer.SchedReq.repeating true 10 0 0] (by decide)).1⟩

/-! ## Claim C10 -/

/-- C10: `ScheduleRepeating` with `initial_delay_ms = 0` schedules the first
execution at `now + interval_ms` (zero means "use the interval"), not at the
current instant; a strictly positive `initial_delay_ms = d` schedules it at
`now + d`. -/
theorem repeating_initial_delay_semantics (s : AsyncTimer.TimerState)
    (now intervalMs : Nat) (hrun : s.running = true) (hint : intervalMs ≠ 0) :
    ((now + intervalMs, s.nextTimerId) ∈
      (AsyncTimer.ScheduleRepeating true intervalMs 0 now s).2.timerTasks ∧
    AsyncTimer.lookupById s.nextTimerId
      (AsyncTimer.ScheduleRepeating true intervalMs 0 now s).2.timerMap =
      some ⟨s.nextTimerId, now + intervalMs, intervalMs, true, false⟩) ∧
    (∀ d, 0 < d →
      (now + d, s.nextTimerId) ∈
        (AsyncTimer.ScheduleRepeating true intervalMs d now s).2.timerTasks ∧
      AsyncTimer.lookupById s.nextTimerId
        (AsyncTimer.ScheduleRepeating true intervalMs d now s).2.timerMap =
        some ⟨s.nextTimerId, now + d, intervalMs, true, false⟩) := by
  have h0 : AsyncTimer.ScheduleRepeating true intervalMs 0 now s =
      (s.nextTimerId,
        { s with nextTimerId := s.nextTimerId + 1,
                 timerTasks := AsyncTimer.emplaceByTime
                   (now + intervalMs, s.nextTimerId) s.timerTasks,
                 timerMap := AsyncTimer.insertById s.nextTimerId
                   ⟨s.nextTimerId, now + intervalMs, intervalMs, true, false⟩
                   s.timerMap }) := by
    simp [AsyncTimer.ScheduleRepeating, AsyncTimer.GenerateTimerId, hint, hrun]
  refine ⟨⟨?_, ?_⟩, ?_⟩
  · rw [h0]
    exact AsyncTimer.mem_emplaceByTime_self _ _
  · rw [h0]
    exact AsyncTimer.lookup_insertById_self _ _ _
  · intro d hd
    have hdel : AsyncTimer.ScheduleRepeating true intervalMs d now s =
        (s.nextTimerId,
          { s with nextTimerId := s.nextTimerId + 1,
                   timerTasks := AsyncTimer.emplaceByTime
                     (now + d, s.nextTimerId) s.timerTasks,
                   timerMap := AsyncTimer.insertById s.nextTimerId
                     ⟨s.nextTimerId, now + d, intervalMs, true, false⟩
                     s.timerMap }) := by
      simp [AsyncTimer.ScheduleRepeating, AsyncTimer.GenerateTimerId,
        hint, hrun, hd]
    constructor
    · rw [hdel]
      exact AsyncTimer.mem_emplaceByTime_self _ _
    · rw [hdel]
      exact AsyncTimer.lookup_insertById_self _ _ _

/-- C10 (witness): scheduling a 50 ms repeater with zero initial delay at
t=0 on a started fresh timer places the first firing at t=50. -/
theorem repeating_initial_delay_semantics_witness :
    (AsyncTimer.Start AsyncTimer.initState).running = true ∧
    ((0 : Nat) + 50,
      (AsyncTimer.Start AsyncTimer.initState).nextTimerId) ∈
      (AsyncTimer.ScheduleRepeating true 50 0 0
        (AsyncTimer.Start AsyncTimer.initState)).2.timerTasks :=
  ⟨rfl, (repeating_initial_delay_semantics
    (AsyncTimer.Start AsyncTimer.initState) 0 50 rfl (by omega)).1.1⟩
